import Mathlib

/-!
Verification of the big-drawing-berry backend against its specification.

The development shallowly embeds the Rust sources:
* `src/backend/common/src/region.rs` — pixel codec, region/local coordinates;
* `src/backend/common/src/draw_event.rs` — hex color parsing;
* `src/backend/server/src/board.rs` — `Board::apply_event` over an explicit
  key-value store state;
* `src/backend/server/src/consumer.rs` — the queue-draining consumer loop.

Machine integers are embedded as `Nat`/`Int` (u8/u32/u64 values are `Nat`,
i32/i64 values are `Int`); byte buffers are `List Nat`; fallible or panicking
code paths are made explicit in return types.
-/

namespace BigDrawingBerry

/-! ### region.rs: constants -/

/-- Region size in pixels (`REGION_SIZE`, 128x128), from region.rs. -/
def REGION_SIZE : Int := 128

/-- Per-pixel binary size (`PIXEL_SIZE`): 3 (RGB) + 3 (owner_id u24) = 6 bytes. -/
def PIXEL_SIZE : Nat := 6

/-- Total region blob size (`REGION_BLOB_SIZE`): 128 * 128 * 6 bytes. -/
def REGION_BLOB_SIZE : Nat := REGION_SIZE.toNat * REGION_SIZE.toNat * PIXEL_SIZE

/-- Number of drawn pixels required to open a region's cardinal neighbors
(`REGION_OPEN_THRESHOLD = (128*128)/5`, an i64 in the source). -/
def REGION_OPEN_THRESHOLD : Int := (REGION_SIZE * REGION_SIZE) / 5

/-- One hour in milliseconds (`OWNERSHIP_DURATION_MS` in board.rs). -/
def OWNERSHIP_DURATION_MS : Nat := 3600000

/-! ### region.rs: pixel codec and coordinates -/

/-- A stored pixel with color and owner (`Pixel` in region.rs).
`owner_id = 0` means undrawn.  Fields are `Nat` embeddings of u8/u32. -/
structure Pixel where
  r : Nat
  g : Nat
  b : Nat
  owner_id : Nat
deriving DecidableEq, Repr

/-- `region_coords`: which region a world-space coordinate falls in.
Rust `i32::div_euclid` is embedded as `Int` division, which is Euclidean
(`Int.ediv`). -/
def region_coords (x y : Int) : Int × Int :=
  (x / REGION_SIZE, y / REGION_SIZE)

/-- `local_coords`: local offset within a region.  Rust `i32::rem_euclid`
(cast to usize) is embedded as the Euclidean `Int` remainder followed by
`Int.toNat`. -/
def local_coords (x y : Int) : Nat × Nat :=
  ((x % REGION_SIZE).toNat, (y % REGION_SIZE).toNat)

/-- `pixel_offset`: byte offset into a region blob for a local coordinate. -/
def pixel_offset (lx ly : Nat) : Nat :=
  (ly * REGION_SIZE.toNat + lx) * PIXEL_SIZE

/-- `Pixel::encode`: the 6-byte binary record `[r, g, b]` followed by the
three low little-endian bytes of `owner_id` (`to_le_bytes` bytes 0..2). -/
def Pixel.encode (p : Pixel) : List Nat :=
  [p.r, p.g, p.b, p.owner_id % 256, p.owner_id / 256 % 256, p.owner_id / 65536 % 256]

/-- `Pixel::decode`: read a 6-byte record; the owner is
`u32::from_le_bytes([buf[3], buf[4], buf[5], 0])`. -/
def Pixel.decode (buf : List Nat) : Pixel :=
  { r := buf.getD 0 0
    g := buf.getD 1 0
    b := buf.getD 2 0
    owner_id := buf.getD 3 0 + 256 * buf.getD 4 0 + 65536 * buf.getD 5 0 }

/-- `Pixel::is_empty`: whether the pixel has ever been drawn on. -/
def Pixel.is_empty (p : Pixel) : Bool :=
  p.owner_id = 0

/-- Overwrite `bytes` into `blob` starting at `offset` (models
`Pixel::encode(&mut blob[offset..offset+6])`). -/
def writeAt (blob : List Nat) (offset : Nat) (bytes : List Nat) : List Nat :=
  blob.take offset ++ bytes ++ blob.drop (offset + bytes.length)

/-- Read `PIXEL_SIZE` bytes at `offset` (models `&blob[offset..offset+6]`). -/
def sliceAt (blob : List Nat) (offset : Nat) : List Nat :=
  (blob.drop offset).take PIXEL_SIZE

/-! ### draw_event.rs: hex color parsing

Rust `String`s are embedded as their UTF-8 byte sequences (`List Nat`).
`DrawPixel::rgb` slices the color string by *bytes* and parses each 2-byte
group with `u8::from_str_radix(_, 16)`.  Byte-range slicing of a `str`
panics when an endpoint is not a UTF-8 character boundary, so the embedding
makes the panic explicit. -/

/-- Value of an ASCII hex digit byte, as in `char::to_digit(16)`. -/
def hexVal (ch : Nat) : Option Nat :=
  if 48 ≤ ch ∧ ch ≤ 57 then some (ch - 48)
  else if 97 ≤ ch ∧ ch ≤ 102 then some (ch - 87)
  else if 65 ≤ ch ∧ ch ≤ 70 then some (ch - 55)
  else none

/-- Digit-accumulation loop of `u8::from_str_radix(_, 16)`: every byte must
be a hex digit and the accumulated value must stay within u8
(`checked_mul`/`checked_add` against 255). -/
def parseHexDigits : Nat → List Nat → Option Nat
  | acc, [] => some acc
  | acc, ch :: t =>
    match hexVal ch with
    | some d => if acc * 16 + d < 256 then parseHexDigits (acc * 16 + d) t else none
    | none => none

/-- `u8::from_str_radix(s, 16)`: an optional leading ASCII `+` (byte 43)
followed by a nonempty run of hex digits. -/
def fromStrRadix16 (bs : List Nat) : Option Nat :=
  match bs with
  | [] => none
  | c :: t =>
    if c = 43 then (if t.isEmpty then none else parseHexDigits 0 t)
    else parseHexDigits 0 (c :: t)

/-- Rust `str::is_char_boundary` at byte index `i`: true at 0 and at the
length; otherwise the byte must not be a UTF-8 continuation byte
(`(b as i8) >= -0x40`, i.e. `b < 0x80 ∨ 0xC0 ≤ b`). -/
def isCharBoundary (s : List Nat) (i : Nat) : Bool :=
  if i = 0 then true
  else
    match s.get? i with
    | some b => decide (b < 128 ∨ 192 ≤ b)
    | none => decide (i = s.length)

/-- Outcome of `DrawPixel::rgb`: a parsed color, `None`, or a panic raised
by byte-slicing the string off a character boundary. -/
inductive RgbResult where
  | ok : Nat × Nat × Nat → RgbResult
  | invalid : RgbResult
  | panic : RgbResult
deriving DecidableEq, Repr

/-- `DrawPixel::rgb` on the color's UTF-8 bytes: reject strings whose byte
length is not 6, then parse `&s[0..2]`, `&s[2..4]`, `&s[4..6]` in order with
`u8::from_str_radix(_, 16)`.  Each slice first checks that its endpoints are
character boundaries (endpoint 0 and endpoint `len` always are; endpoints 2
and 4 are checked before the slice that first uses them) and panics
otherwise. -/
def rgbBytes (color : List Nat) : RgbResult :=
  if color.length ≠ 6 then .invalid
  else if ¬ isCharBoundary color 2 then .panic
  else
    match fromStrRadix16 (color.take 2) with
    | none => .invalid
    | some r =>
      if ¬ isCharBoundary color 4 then .panic
      else
        match fromStrRadix16 ((color.drop 2).take 2) with
        | none => .invalid
        | some g =>
          match fromStrRadix16 ((color.drop 4).take 2) with
          | none => .invalid
          | some b => .ok (r, g, b)

/-- A single pixel in a draw call's arguments (`DrawPixel`); the color
string is embedded as its UTF-8 bytes. -/
structure DrawPixel where
  x : Int
  y : Int
  color : List Nat
deriving DecidableEq, Repr

/-- The non-panicking view of `DrawPixel::rgb`, used where a caller
continues on `None`. -/
def DrawPixel.rgb (p : DrawPixel) : Option (Nat × Nat × Nat) :=
  match rgbBytes p.color with
  | .ok v => some v
  | _ => none

/-- Whether evaluating `DrawPixel::rgb` on this color panics. -/
def colorPanics (color : List Nat) : Bool :=
  rgbBytes color = RgbResult.panic

/-- A fully resolved draw event (`DrawEvent`). -/
structure DrawEvent where
  predecessor_id : String
  block_height : Nat
  block_timestamp_ms : Nat
  pixels : List DrawPixel

/-- Modelled from the spec: "s must be exactly six hex digits" — the
specification's own validity predicate for color strings, used to compare
with the source's `DrawPixel::rgb`. -/
def specHex6 (s : List Nat) : Bool :=
  s.length = 6 &&
    s.all fun b =>
      decide ((48 ≤ b ∧ b ≤ 57) ∨ (65 ≤ b ∧ b ≤ 70) ∨ (97 ≤ b ∧ b ≤ 102))

/-! ### valkey.rs / board.rs: the key-value store state

The Valkey keys used by the board are given structured types instead of
formatted strings (the source's `region:{rx}:{ry}`, `pixel_ts:{rx}:{ry}`,
`{lx},{ly}` and `{rx}:{ry}` formats are injective in their arguments).
Hash fields absent from `account_pixel_count` / `region_pixel_count` read
as 0, matching `HINCRBY` on a missing field and the `unwrap_or(0)` on
`HGET`.  Timestamp scores are embedded as `Nat` (the source stores
`block_timestamp_ms as f64`, exact below 2^53). -/

/-- The key-value store state visible to `Board::apply_event`. -/
structure KV where
  /-- `region:{rx}:{ry}` blobs; an absent key reads as the empty list. -/
  regions : Int × Int → List Nat
  /-- `pixel_ts:{rx}:{ry}` sorted sets: member `(lx, ly)` to score. -/
  pixelTs : Int × Int → Nat × Nat → Option Nat
  /-- `region_meta:{rx}:{ry}` hashes, field `last_updated`. -/
  regionMeta : Int × Int → Option Nat
  /-- `account_pixel_count` hash, `owner_id → i64`. -/
  accountPixelCount : Nat → Int
  /-- `region_pixel_count` hash, `(rx, ry) → i64`. -/
  regionPixelCount : Int × Int → Int
  /-- `open_regions` set membership. -/
  openRegions : Int × Int → Bool
  /-- `account_to_id` hash as an association list (insertion order, unique
  keys), so that `HLEN` is its length. -/
  accountToId : List (String × Nat)
  /-- `id_to_account` hash as an association list. -/
  idToAccount : List (Nat × String)

/-- Pointwise update of a function at one key. -/
def fupd {α β : Type} [DecidableEq α] (f : α → β) (a : α) (b : β) : α → β :=
  fun x => if x = a then b else f x

/-- `HGET` on an association list. -/
def hgetS : List (String × Nat) → String → Option Nat
  | [], _ => none
  | e :: t, k => if e.1 = k then some e.2 else hgetS t k

/-- `HSET` on an association list (update in place or append). -/
def hsetS : List (String × Nat) → String → Nat → List (String × Nat)
  | [], k, v => [(k, v)]
  | e :: t, k, v => if e.1 = k then (k, v) :: t else e :: hsetS t k v

/-- `HSET` on the reverse `id_to_account` association list. -/
def hsetN : List (Nat × String) → Nat → String → List (Nat × String)
  | [], k, v => [(k, v)]
  | e :: t, k, v => if e.1 = k then (k, v) :: t else e :: hsetN t k v

/-- One pixel of the value returned by `Board::apply_event`
(`AppliedPixel` in board.rs). -/
structure AppliedPixel where
  x : Int
  y : Int
  r : Nat
  g : Nat
  b : Nat
  owner_id : Nat
deriving DecidableEq, Repr

/-- A bucketed pixel: local coordinates plus parsed color
(the `(lx, ly, r, g, b)` tuples grouped per region in `apply_event`). -/
structure LocalPx where
  lx : Nat
  ly : Nat
  r : Nat
  g : Nat
  b : Nat
deriving DecidableEq, Repr

namespace Board

/-- `Board::resolve_owner_id`: look up the account's id; otherwise assign
`HLEN(account_to_id) + 1` and record both directions of the mapping. -/
def resolve_owner_id (kv : KV) (account : String) : Nat × KV :=
  match hgetS kv.accountToId account with
  | some id => (id, kv)
  | none =>
    let newId := kv.accountToId.length + 1
    (newId,
      { kv with
        accountToId := hsetS kv.accountToId account newId
        idToAccount := hsetN kv.idToAccount newId account })

/-- `Board::get_region` as seen through the KV store: an absent or empty
blob is replaced by a zeroed region.  (The LRU cache of the source is
write-through and is not modeled.) -/
def getRegionBlob (kv : KV) (rc : Int × Int) : List Nat :=
  let b := kv.regions rc
  if b.isEmpty then List.replicate REGION_BLOB_SIZE 0 else b

/-- State threaded through the per-pixel loop of one region bucket. -/
structure LoopSt where
  blob : List Nat
  appliedTs : List ((Nat × Nat) × Nat)
  newPixelCount : Int
  stolenFrom : List (Nat × Int)
  appliedPx : List AppliedPixel

/-- `*stolen_from.entry(owner).or_insert(0) += 1` on an association list. -/
def incStolen : List (Nat × Int) → Nat → List (Nat × Int)
  | [], o => [(o, 1)]
  | e :: t, o => if e.1 = o then (e.1, e.2 + 1) :: t else e :: incStolen t o

/-- The body of the per-pixel loop of `Board::apply_event`: decode the
existing pixel from the in-memory blob, run the ownership check against the
timestamp z-set (`ZSCORE` reads the store as it was when the bucket started:
the region's pipeline runs only after the loop), then either skip the pixel
or write it and record counters.  `t1` is `event.block_timestamp_ms`;
`age = t1.saturating_sub(ts)` is `Nat` subtraction. -/
def pixelStep (kv : KV) (rc : Int × Int) (ownerId t1 : Nat)
    (st : LoopSt) (p : LocalPx) : LoopSt :=
  let offset := pixel_offset p.lx p.ly
  let existing := Pixel.decode (sliceAt st.blob offset)
  let allowed : Bool :=
    if existing.owner_id = 0 then true
    else
      match kv.pixelTs rc (p.lx, p.ly) with
      | none => false
      | some t0 => decide (t1 - t0 < OWNERSHIP_DURATION_MS)
  if allowed then
    { blob := writeAt st.blob offset (Pixel.encode ⟨p.r, p.g, p.b, ownerId⟩)
      appliedTs := st.appliedTs ++ [((p.lx, p.ly), t1)]
      newPixelCount := st.newPixelCount + (if existing.owner_id = 0 then 1 else 0)
      stolenFrom :=
        if existing.owner_id ≠ 0 ∧ existing.owner_id ≠ ownerId then
          incStolen st.stolenFrom existing.owner_id
        else st.stolenFrom
      appliedPx := st.appliedPx ++
        [{ x := rc.1 * REGION_SIZE + (p.lx : Int)
           y := rc.2 * REGION_SIZE + (p.ly : Int)
           r := p.r, g := p.g, b := p.b, owner_id := ownerId }] }
  else st

/-- The per-pixel loop over one region bucket. -/
def regionLoop (kv : KV) (rc : Int × Int) (ownerId t1 : Nat)
    (ps : List LocalPx) : LoopSt :=
  ps.foldl (pixelStep kv rc ownerId t1)
    { blob := getRegionBlob kv rc
      appliedTs := []
      newPixelCount := 0
      stolenFrom := []
      appliedPx := [] }

/-- `ZADD` of the staged `(member, score)` pairs. -/
def zaddList (f : Nat × Nat → Option Nat) (entries : List ((Nat × Nat) × Nat)) :
    Nat × Nat → Option Nat :=
  entries.foldl (fun g e => fupd g e.1 (some e.2)) f

/-- `ZREMRANGEBYSCORE key 0 cutoff` (inclusive bounds). -/
def ztrim (f : Nat × Nat → Option Nat) (cutoff : Nat) : Nat × Nat → Option Nat :=
  fun m =>
    match f m with
    | some s => if s ≤ cutoff then none else some s
    | none => none

/-- The per-region write pipeline of `Board::apply_event`, in command
order: `ZADD` + trim (only when something was applied), `SET` of the blob,
`HSET region_meta … last_updated`, `HINCRBY account_pixel_count owner
(new + stolen)` when positive, one negative `HINCRBY` per stolen-from
owner, and `HINCRBY region_pixel_count` when new pixels were claimed. -/
def pipelineWrites (kv : KV) (rc : Int × Int) (ownerId t1 : Nat) (st : LoopSt) : KV :=
  let kv1 :=
    if st.appliedTs.isEmpty then kv
    else
      { kv with
        pixelTs := fupd kv.pixelTs rc
          (ztrim (zaddList (kv.pixelTs rc) st.appliedTs) (t1 - OWNERSHIP_DURATION_MS)) }
  let kv2 := { kv1 with regions := fupd kv1.regions rc st.blob }
  let kv3 := { kv2 with regionMeta := fupd kv2.regionMeta rc (some t1) }
  let totalStolen : Int := (st.stolenFrom.map fun e => e.2).sum
  let ownerGain := st.newPixelCount + totalStolen
  let kv4 :=
    if 0 < ownerGain then
      { kv3 with
        accountPixelCount :=
          fupd kv3.accountPixelCount ownerId (kv3.accountPixelCount ownerId + ownerGain) }
    else kv3
  let kv5 :=
    { kv4 with
      accountPixelCount :=
        st.stolenFrom.foldl (fun f e => fupd f e.1 (f e.1 - e.2)) kv4.accountPixelCount }
  if 0 < st.newPixelCount then
    { kv5 with
      regionPixelCount :=
        fupd kv5.regionPixelCount rc (kv5.regionPixelCount rc + st.newPixelCount) }
  else kv5

/-- The four cardinal neighbors checked by the expansion step, in source
order. -/
def cardinalNeighbors (rc : Int × Int) : List (Int × Int) :=
  [(rc.1 - 1, rc.2), (rc.1 + 1, rc.2), (rc.1, rc.2 - 1), (rc.1, rc.2 + 1)]

/-- The expansion loop: `SADD open_regions` each neighbor in turn,
appending to `newly_opened` exactly when the `SADD` returns 1. -/
def saddNeighbors (kv : KV) (opened : List (Int × Int)) (ns : List (Int × Int)) :
    KV × List (Int × Int) :=
  ns.foldl
    (fun acc n =>
      if acc.1.openRegions n then acc
      else ({ acc.1 with openRegions := fupd acc.1.openRegions n true }, acc.2 ++ [n]))
    (kv, opened)

/-- Processing of one region bucket inside `Board::apply_event`: the
`SISMEMBER` gate, the pixel loop, the write pipeline, and the expansion
check (`HGET region_pixel_count` compared to `REGION_OPEN_THRESHOLD`,
guarded by `new_pixel_count > 0`). -/
def processRegion (ownerId t1 : Nat)
    (acc : List AppliedPixel × List (Int × Int) × KV)
    (bucket : (Int × Int) × List LocalPx) :
    List AppliedPixel × List (Int × Int) × KV :=
  let applied := acc.1
  let opened := acc.2.1
  let kv := acc.2.2
  let rc := bucket.1
  if kv.openRegions rc = false then acc
  else
    let st := regionLoop kv rc ownerId t1 bucket.2
    let kv1 := pipelineWrites kv rc ownerId t1 st
    if 0 < st.newPixelCount ∧ REGION_OPEN_THRESHOLD ≤ kv1.regionPixelCount rc then
      let s := saddNeighbors kv1 opened (cardinalNeighbors rc)
      (applied ++ st.appliedPx, s.2, s.1)
    else (applied ++ st.appliedPx, opened, kv1)

/-- Insert one bucketed pixel into the region-bucket association list
(`region_pixels.entry((rx, ry)).or_default().push(...)`; first-occurrence
region order stands in for the source's `HashMap` iteration order). -/
def bucketInsert : List ((Int × Int) × List LocalPx) → Int × Int → LocalPx →
    List ((Int × Int) × List LocalPx)
  | [], k, v => [(k, [v])]
  | b :: t, k, v => if b.1 = k then (b.1, b.2 ++ [v]) :: t else b :: bucketInsert t k v

/-- The bucketing loop of `Board::apply_event`: drop pixels whose color
does not parse, map the rest to region and local coordinates. -/
def bucketPixels (pixels : List DrawPixel) : List ((Int × Int) × List LocalPx) :=
  pixels.foldl
    (fun acc p =>
      match p.rgb with
      | none => acc
      | some c =>
        bucketInsert acc (region_coords p.x p.y)
          ⟨(local_coords p.x p.y).1, (local_coords p.x p.y).2, c.1, c.2.1, c.2.2⟩)
    []

/-- `Board::apply_event`.  Returns `none` in the first component when the
bucketing loop panics inside `DrawPixel::rgb` (the call never returns); the
KV state at that point has seen only `resolve_owner_id`'s writes.  Otherwise
returns `(applied, newly_opened)` and the final store. -/
def apply_event (kv : KV) (e : DrawEvent) :
    Option (List AppliedPixel × List (Int × Int)) × KV :=
  let res := resolve_owner_id kv e.predecessor_id
  if e.pixels.any (fun p => colorPanics p.color) then (none, res.2)
  else
    let out := (bucketPixels e.pixels).foldl
      (processRegion res.1 e.block_timestamp_ms) ([], [], res.2)
    (some (out.1, out.2.1), out.2.2)

end Board

/-! ### consumer.rs: the queue-draining loop

The consumer state keeps the two Valkey lists (`draw_queue`,
`processing_queue`; index 0 is the `LPUSH` head) together with an abstract
board state.  Parsing (`serde_json::from_str`) and the board application
plus replay-log writes are abstracted as parameters: the claims about the
consumer concern its queue bookkeeping, which is independent of both.  KV
operations are assumed to succeed (the error branches retry without
touching the queues). -/

structure ConsumerState (B : Type) where
  drawQueue : List String
  processingQueue : List String
  board : B

/-- `RPOPLPUSH draw_queue processing_queue`: atomically move the tail item
of `draw_queue` to the head of `processing_queue`.  Identity when the queue
is empty. -/
def popPhase {B : Type} (s : ConsumerState B) : ConsumerState B :=
  match s.drawQueue.getLast? with
  | none => s
  | some item =>
    { s with drawQueue := s.drawQueue.dropLast
             processingQueue := item :: s.processingQueue }

/-- `LREM processing_queue 1 item`: remove the first occurrence,
head-to-tail. -/
def lrem1 (l : List String) (item : String) : List String :=
  l.erase item

/-- One iteration of the consumer loop `run`: pop-and-move; on parse
failure remove the raw item from `processing_queue` and continue; on parse
success apply the event to the board (and write the replay log, which lives
in the board component) and remove the raw item — the `LREM` is issued in
both the applied-nonempty and applied-empty branches. -/
def consumerStep {B E : Type} (parse : String → Option E) (applyB : B → E → B)
    (s : ConsumerState B) : ConsumerState B :=
  match s.drawQueue.getLast? with
  | none => s
  | some item =>
    let s1 := popPhase s
    match parse item with
    | none => { s1 with processingQueue := lrem1 s1.processingQueue item }
    | some e =>
      { s1 with
        board := applyB s1.board e
        processingQueue := lrem1 s1.processingQueue item }

/-! ## Claims about the codec (C6, C10) -/

/-- C6: for every pixel `(r, g, b, owner)` with `r, g, b < 256` and
`owner < 2^24`, decoding the 6-byte encoding yields the pixel back:
`Pixel::decode(Pixel::encode(p)) == p`. -/
theorem C6_pixel_roundtrip (r g b o : Nat) (hr : r < 256) (hg : g < 256)
    (hb : b < 256) (ho : o < 2 ^ 24) :
    Pixel.decode (Pixel.encode ⟨r, g, b, o⟩) = ⟨r, g, b, o⟩ := by
  simp only [Pixel.encode, Pixel.decode, List.getD, List.get?, Option.getD_some]
  refine Pixel.mk.injEq _ _ _ _ _ _ _ _ ▸ ⟨rfl, rfl, rfl, ?_⟩
  omega

theorem C6_pixel_roundtrip_witness :
    Pixel.decode (Pixel.encode ⟨17, 34, 51, 70000⟩) = ⟨17, 34, 51, 70000⟩ :=
  C6_pixel_roundtrip 17 34 51 70000 (by decide) (by decide) (by decide) (by decide)

/-- C10: `Pixel::encode` stores only the low 3 little-endian bytes of a u32
`owner_id`, so decoding gives `owner_id % 2^24`; owner ids differing by a
multiple of 2^24 alias to the same stored record; and a nonzero multiple of
2^24 decodes to the undrawn sentinel 0 with no error reported. -/
theorem C10_owner_truncation (r g b o : Nat) (ho : o < 2 ^ 32) :
    (Pixel.decode (Pixel.encode ⟨r, g, b, o⟩)).owner_id = o % 2 ^ 24 ∧
    (∀ o2 : Nat, o2 < 2 ^ 32 → o % 2 ^ 24 = o2 % 2 ^ 24 →
      Pixel.encode ⟨r, g, b, o⟩ = Pixel.encode ⟨r, g, b, o2⟩) ∧
    (∀ k : Nat, 0 < k → o = k * 2 ^ 24 →
      0 < o ∧ Pixel.decode (Pixel.encode ⟨r, g, b, o⟩) = ⟨r, g, b, 0⟩) := by
  refine ⟨?_, ?_, ?_⟩
  · simp only [Pixel.encode, Pixel.decode, List.getD, List.get?, Option.getD_some]
    omega
  · intro o2 _ h24
    simp only [Pixel.encode, List.cons.injEq, true_and, and_true]
    omega
  · intro k hk hko
    constructor
    · omega
    · simp only [Pixel.encode, Pixel.decode, List.getD, List.get?, Option.getD_some]
      refine Pixel.mk.injEq _ _ _ _ _ _ _ _ ▸ ⟨rfl, rfl, rfl, ?_⟩
      omega

theorem C10_owner_truncation_witness :
    (Pixel.decode (Pixel.encode ⟨1, 2, 3, 2 ^ 24 + 9⟩)).owner_id = (2 ^ 24 + 9) % 2 ^ 24 ∧
    (∀ o2 : Nat, o2 < 2 ^ 32 → (2 ^ 24 + 9) % 2 ^ 24 = o2 % 2 ^ 24 →
      Pixel.encode ⟨1, 2, 3, 2 ^ 24 + 9⟩ = Pixel.encode ⟨1, 2, 3, o2⟩) ∧
    (∀ k : Nat, 0 < k → 2 ^ 24 + 9 = k * 2 ^ 24 →
      0 < 2 ^ 24 + 9 ∧ Pixel.decode (Pixel.encode ⟨1, 2, 3, 2 ^ 24 + 9⟩) = ⟨1, 2, 3, 0⟩) :=
  C10_owner_truncation 1 2 3 (2 ^ 24 + 9) (by norm_num)

/-! ## Claims about the coordinate mapping (C7, C9) -/

/-- C7: for every i32 coordinate pair, `region_coords` and `local_coords`
satisfy `rx*128 + lx = x`, `ry*128 + ly = y` with `0 ≤ lx, ly < 128`, and
`pixel_offset lx ly = (ly*128 + lx)*6`. -/
theorem C7_coordinate_mapping (x y : Int)
    (hx1 : -(2 ^ 31) ≤ x) (hx2 : x < 2 ^ 31)
    (hy1 : -(2 ^ 31) ≤ y) (hy2 : y < 2 ^ 31) :
    (region_coords x y).1 * 128 + ((local_coords x y).1 : Int) = x ∧
    (region_coords x y).2 * 128 + ((local_coords x y).2 : Int) = y ∧
    (local_coords x y).1 < 128 ∧ (local_coords x y).2 < 128 ∧
    ∀ lx ly : Nat, pixel_offset lx ly = (ly * 128 + lx) * 6 := by
  simp only [region_coords, local_coords, pixel_offset, REGION_SIZE, PIXEL_SIZE,
    show Int.toNat 128 = 128 from rfl]
  refine ⟨?_, ?_, ?_, ?_, fun lx ly => trivial⟩ <;> omega

theorem C7_coordinate_mapping_witness :
    (region_coords (-300) 171).1 * 128 + ((local_coords (-300) 171).1 : Int) = -300 ∧
    (region_coords (-300) 171).2 * 128 + ((local_coords (-300) 171).2 : Int) = 171 ∧
    (local_coords (-300) 171).1 < 128 ∧ (local_coords (-300) 171).2 < 128 ∧
    ∀ lx ly : Nat, pixel_offset lx ly = (ly * 128 + lx) * 6 :=
  C7_coordinate_mapping (-300) 171 (by norm_num) (by norm_num) (by norm_num) (by norm_num)

/-- C9: for every i32 coordinate, the blob offset of the pixel satisfies
`offset + PIXEL_SIZE ≤ REGION_BLOB_SIZE` (so the 6-byte slice taken by
`Board::apply_event` on a full-size blob is in bounds), and the coordinate
computations stay inside i32: the region coordinates lie in
`[-2^24, 2^24)` and the reconstruction `rx*128 + lx` stays in i32 range. -/
theorem C9_offset_in_bounds (x y : Int)
    (hx1 : -(2 ^ 31) ≤ x) (hx2 : x < 2 ^ 31)
    (hy1 : -(2 ^ 31) ≤ y) (hy2 : y < 2 ^ 31) :
    pixel_offset (local_coords x y).1 (local_coords x y).2 + PIXEL_SIZE ≤ REGION_BLOB_SIZE ∧
    -(2 ^ 24) ≤ (region_coords x y).1 ∧ (region_coords x y).1 < 2 ^ 24 ∧
    -(2 ^ 24) ≤ (region_coords x y).2 ∧ (region_coords x y).2 < 2 ^ 24 ∧
    -(2 ^ 31) ≤ (region_coords x y).1 * 128 + ((local_coords x y).1 : Int) ∧
    (region_coords x y).1 * 128 + ((local_coords x y).1 : Int) < 2 ^ 31 ∧
    -(2 ^ 31) ≤ (region_coords x y).2 * 128 + ((local_coords x y).2 : Int) ∧
    (region_coords x y).2 * 128 + ((local_coords x y).2 : Int) < 2 ^ 31 := by
  simp only [pixel_offset, local_coords, region_coords, PIXEL_SIZE, REGION_BLOB_SIZE,
    REGION_SIZE, show Int.toNat 128 = 128 from rfl]
  omega

theorem C9_offset_in_bounds_witness :
    pixel_offset (local_coords 2147483647 (-2147483648)).1
        (local_coords 2147483647 (-2147483648)).2 + PIXEL_SIZE ≤ REGION_BLOB_SIZE ∧
    -(2 ^ 24) ≤ (region_coords 2147483647 (-2147483648)).1 ∧
    (region_coords 2147483647 (-2147483648)).1 < 2 ^ 24 ∧
    -(2 ^ 24) ≤ (region_coords 2147483647 (-2147483648)).2 ∧
    (region_coords 2147483647 (-2147483648)).2 < 2 ^ 24 ∧
    -(2 ^ 31) ≤ (region_coords 2147483647 (-2147483648)).1 * 128 +
        ((local_coords 2147483647 (-2147483648)).1 : Int) ∧
    (region_coords 2147483647 (-2147483648)).1 * 128 +
        ((local_coords 2147483647 (-2147483648)).1 : Int) < 2 ^ 31 ∧
    -(2 ^ 31) ≤ (region_coords 2147483647 (-2147483648)).2 * 128 +
        ((local_coords 2147483647 (-2147483648)).2 : Int) ∧
    (region_coords 2147483647 (-2147483648)).2 * 128 +
        ((local_coords 2147483647 (-2147483648)).2 : Int) < 2 ^ 31 :=
  C9_offset_in_bounds 2147483647 (-2147483648) (by norm_num) (by norm_num)
    (by norm_num) (by norm_num)

/-! ## Claims about hex color parsing (C3) -/

lemma hexVal_isSome_lt (c d : Nat) (h : hexVal c = some d) : c < 128 := by
  unfold hexVal at h
  split_ifs at h <;> omega

lemma parseHexDigits_cons_head_lt (acc v c : Nat) (t : List Nat)
    (h : parseHexDigits acc (c :: t) = some v) : c < 128 := by
  unfold parseHexDigits at h
  cases hc : hexVal c with
  | none => rw [hc] at h; exact absurd h (by simp)
  | some d => exact hexVal_isSome_lt c d hc

lemma fromStrRadix16_some_head (bs : List Nat) (v : Nat)
    (h : fromStrRadix16 bs = some v) : ∃ c t, bs = c :: t ∧ c < 128 := by
  cases bs with
  | nil => simp [fromStrRadix16] at h
  | cons c t =>
    refine ⟨c, t, rfl, ?_⟩
    by_cases hc : c = 43
    · omega
    · have hp : parseHexDigits 0 (c :: t) = some v := by
        simpa [fromStrRadix16, hc] using h
      exact parseHexDigits_cons_head_lt 0 v c t hp

lemma isCharBoundary_of_get (s : List Nat) (i c : Nat) (hi : i ≠ 0)
    (hg : s.get? i = some c) (hc : c < 128) : isCharBoundary s i = true := by
  simp only [isCharBoundary, hi, if_false, hg, decide_eq_true_eq]
  omega

lemma boundary_of_group_parse (s : List Nat) (n v : Nat) (hn : n ≠ 0)
    (h : fromStrRadix16 ((s.drop n).take 2) = some v) :
    isCharBoundary s n = true := by
  obtain ⟨c, t, hct, hc⟩ := fromStrRadix16_some_head _ _ h
  have h0 : ((s.drop n).take 2).get? 0 = some c := by rw [hct]; rfl
  rw [List.get?_take (by norm_num : (0 : Nat) < 2)] at h0
  rw [List.get?_drop, Nat.add_zero] at h0
  exact isCharBoundary_of_get s n c hn h0 hc

lemma rgbBytes_ok_iff (s : List Nat) (r g b : Nat) :
    rgbBytes s = RgbResult.ok (r, g, b) ↔
      s.length = 6 ∧ fromStrRadix16 (s.take 2) = some r ∧
      fromStrRadix16 ((s.drop 2).take 2) = some g ∧
      fromStrRadix16 ((s.drop 4).take 2) = some b := by
  constructor
  · intro h
    by_cases h1 : s.length = 6
    case neg => simp [rgbBytes, h1] at h
    simp only [rgbBytes, h1, ne_eq, not_true_eq_false, if_false] at h
    by_cases hb2 : isCharBoundary s 2
    case neg => simp [hb2] at h
    simp only [hb2, not_true_eq_false, if_false] at h
    cases hf1 : fromStrRadix16 (s.take 2) with
    | none => rw [hf1] at h; exact absurd h (by simp)
    | some r2 =>
      rw [hf1] at h
      by_cases hb4 : isCharBoundary s 4
      case neg => simp [hb4] at h
      simp only [hb4, not_true_eq_false, if_false] at h
      cases hf2 : fromStrRadix16 ((s.drop 2).take 2) with
      | none => rw [hf2] at h; exact absurd h (by simp)
      | some g2 =>
        rw [hf2] at h
        cases hf3 : fromStrRadix16 ((s.drop 4).take 2) with
        | none => rw [hf3] at h; exact absurd h (by simp)
        | some b2 =>
          rw [hf3] at h
          have hcomp : r2 = r ∧ g2 = g ∧ b2 = b := by
            have := h
            simp only [RgbResult.ok.injEq, Prod.mk.injEq] at this
            exact ⟨this.1, this.2.1, this.2.2⟩
          obtain ⟨hr, hg2, hb3⟩ := hcomp
          subst hr; subst hg2; subst hb3
          exact ⟨h1, rfl, rfl, rfl⟩
  · rintro ⟨h1, hr, hg2, hb3⟩
    have hbd2 : isCharBoundary s 2 = true :=
      boundary_of_group_parse s 2 g (by norm_num) hg2
    have hbd4 : isCharBoundary s 4 = true :=
      boundary_of_group_parse s 4 b (by norm_num) hb3
    simp [rgbBytes, h1, hbd2, hbd4, hr, hg2, hb3]

lemma rgbBytes_ascii_no_panic (s : List Nat) (h : ∀ c ∈ s, c < 128) :
    rgbBytes s ≠ RgbResult.panic := by
  by_cases h1 : s.length = 6
  · have hget : ∀ i : Nat, i < 6 → ∃ c, s.get? i = some c := by
      intro i hi
      cases hg : s.get? i with
      | none => exact absurd (List.get?_eq_none.mp hg) (by omega)
      | some c => exact ⟨c, rfl⟩
    obtain ⟨c2, hc2⟩ := hget 2 (by norm_num)
    obtain ⟨c4, hc4⟩ := hget 4 (by norm_num)
    have hbd2 : isCharBoundary s 2 = true :=
      isCharBoundary_of_get s 2 c2 (by norm_num) hc2 (h c2 (List.get?_mem hc2))
    have hbd4 : isCharBoundary s 4 = true :=
      isCharBoundary_of_get s 4 c4 (by norm_num) hc4 (h c4 (List.get?_mem hc4))
    simp only [rgbBytes, h1, ne_eq, not_true_eq_false, if_false, hbd2, hbd4]
    cases fromStrRadix16 (s.take 2) <;> simp
    cases fromStrRadix16 ((s.drop 2).take 2) <;> simp
    cases fromStrRadix16 ((s.drop 4).take 2) <;> simp
  · simp [rgbBytes, h1]

/-- C3 counterexample: the claim "`rgb` returns `Some` iff the string is
exactly six hexadecimal digits, and `None` — without panicking — otherwise"
fails on the code: `"+00000"` (bytes `43 48 48 48 48 48`) is not six hex
digits yet parses to `Some (0, 0, 0)` because `u8::from_str_radix` accepts
a leading `+`; and on `"a€bc"` (bytes `97 226 130 172 98 99`, six bytes)
the slice `&color[0..2]` panics because byte 2 is not a char boundary. -/
theorem C3_counterexample :
    rgbBytes [43, 48, 48, 48, 48, 48] = RgbResult.ok (0, 0, 0) ∧
    specHex6 [43, 48, 48, 48, 48, 48] = false ∧
    rgbBytes [97, 226, 130, 172, 98, 99] = RgbResult.panic := by decide

/-- C3 (amended): `DrawPixel::rgb` returns `Some (r, g, b)` iff the color
string is exactly 6 bytes and each 2-byte group parses under
`u8::from_str_radix(_, 16)` — hex digits with an optional leading `+`; for
strings of ASCII characters it never panics (on certain non-ASCII 6-byte
strings the byte slicing panics instead of returning `None`). -/
theorem C3_rgb_amended :
    (∀ s : List Nat, ∀ r g b : Nat,
      rgbBytes s = RgbResult.ok (r, g, b) ↔
        s.length = 6 ∧ fromStrRadix16 (s.take 2) = some r ∧
        fromStrRadix16 ((s.drop 2).take 2) = some g ∧
        fromStrRadix16 ((s.drop 4).take 2) = some b) ∧
    (∀ s : List Nat, (∀ c ∈ s, c < 128) → rgbBytes s ≠ RgbResult.panic) :=
  ⟨rgbBytes_ok_iff, rgbBytes_ascii_no_panic⟩

theorem C3_rgb_amended_witness :
    rgbBytes [70, 70, 53, 55, 51, 51] = RgbResult.ok (255, 87, 51) ∧
    rgbBytes [48, 48, 48, 48, 48, 49] ≠ RgbResult.panic :=
  ⟨(C3_rgb_amended.1 [70, 70, 53, 55, 51, 51] 255 87 51).mpr (by decide),
   C3_rgb_amended.2 [48, 48, 48, 48, 48, 49] (by decide)⟩

/-! ## Claims about the consumer loop (C5) -/

lemma consumerStep_processingQueue {B E : Type} (parse : String → Option E)
    (applyB : B → E → B) (s : ConsumerState B) :
    (consumerStep parse applyB s).processingQueue = s.processingQueue := by
  cases hq : s.drawQueue.getLast? with
  | none => simp [consumerStep, hq]
  | some item =>
    cases hp : parse item with
    | none => simp [consumerStep, popPhase, lrem1, hq, hp]
    | some e => simp [consumerStep, popPhase, lrem1, hq, hp]

lemma consumerStep_drawQueue {B E : Type} (parse : String → Option E)
    (applyB : B → E → B) (s : ConsumerState B) :
    (consumerStep parse applyB s).drawQueue = s.drawQueue.dropLast := by
  cases hq : s.drawQueue.getLast? with
  | none =>
    have h : s.drawQueue = [] := by
      simpa [List.getLast?_eq_none_iff] using hq
    simp [consumerStep, hq, h]
  | some item =>
    cases hp : parse item with
    | none => simp [consumerStep, popPhase, hq, hp]
    | some e => simp [consumerStep, popPhase, hq, hp]

lemma consumerStep_iterate {B E : Type} (parse : String → Option E)
    (applyB : B → E → B) (n : Nat) (s : ConsumerState B) :
    ((consumerStep parse applyB)^[n] s).drawQueue = List.dropLast^[n] s.drawQueue ∧
    ((consumerStep parse applyB)^[n] s).processingQueue = s.processingQueue := by
  induction n generalizing s with
  | zero => exact ⟨rfl, rfl⟩
  | succ k ih =>
    rw [Function.iterate_succ_apply, Function.iterate_succ_apply]
    refine ⟨?_, ?_⟩
    · rw [(ih (consumerStep parse applyB s)).1, consumerStep_drawQueue]
    · rw [(ih (consumerStep parse applyB s)).2, consumerStep_processingQueue]

lemma dropLast_iterate_length (n : Nat) :
    ∀ l : List String, l.length = n → List.dropLast^[n] l = [] := by
  induction n with
  | zero => intro l hl; rw [List.length_eq_zero.mp hl]; rfl
  | succ k ih =>
    intro l hl
    rw [Function.iterate_succ_apply]
    exact ih l.dropLast (by rw [List.length_dropLast]; omega)

/-- C5: an item popped from `draw_queue` is atomically moved to the head of
`processing_queue`; one consumer iteration removes it from
`processing_queue` exactly once — whether it parses or not, and whether or
not any pixel was applied — restoring `processing_queue` and shortening
`draw_queue` by the popped item; hence after processing the `N` enqueued
events, `draw_queue` has shrunk by `N` and `processing_queue` is empty. -/
theorem C5_queue_bookkeeping {B E : Type} (parse : String → Option E)
    (applyB : B → E → B) :
    (∀ s : ConsumerState B, ∀ item : String,
      s.drawQueue.getLast? = some item →
        (popPhase s).processingQueue = item :: s.processingQueue ∧
        (popPhase s).drawQueue = s.drawQueue.dropLast ∧
        (consumerStep parse applyB s).processingQueue = s.processingQueue ∧
        (consumerStep parse applyB s).drawQueue = s.drawQueue.dropLast) ∧
    (∀ (q : List String) (b : B) (n : Nat), q.length = n →
      ((consumerStep parse applyB)^[n] ⟨q, [], b⟩).drawQueue = [] ∧
      ((consumerStep parse applyB)^[n] ⟨q, [], b⟩).processingQueue = []) := by
  constructor
  · intro s item hq
    refine ⟨?_, ?_, consumerStep_processingQueue parse applyB s,
      consumerStep_drawQueue parse applyB s⟩ <;> simp [popPhase, hq]
  · intro q b n hn
    refine ⟨?_, ?_⟩
    · rw [(consumerStep_iterate parse applyB n ⟨q, [], b⟩).1]
      exact dropLast_iterate_length n q hn
    · exact (consumerStep_iterate parse applyB n ⟨q, [], b⟩).2

theorem C5_queue_bookkeeping_witness :
    ((consumerStep (fun _ => (none : Option Unit)) (fun b _ => b))^[1]
      (⟨["e1"], [], ()⟩ : ConsumerState Unit)).drawQueue = [] ∧
    ((consumerStep (fun _ => (none : Option Unit)) (fun b _ => b))^[1]
      (⟨["e1"], [], ()⟩ : ConsumerState Unit)).processingQueue = [] :=
  (C5_queue_bookkeeping (fun _ => none) (fun b _ => b)).2 ["e1"] () 1 rfl

/-! ## Claims about `Board::apply_event` (C2, C4, C1, C8) -/

lemma resolve_owner_id_frame (kv : KV) (acct : String) :
    ((Board.resolve_owner_id kv acct).2).regions = kv.regions ∧
    ((Board.resolve_owner_id kv acct).2).pixelTs = kv.pixelTs ∧
    ((Board.resolve_owner_id kv acct).2).regionMeta = kv.regionMeta ∧
    ((Board.resolve_owner_id kv acct).2).accountPixelCount = kv.accountPixelCount ∧
    ((Board.resolve_owner_id kv acct).2).regionPixelCount = kv.regionPixelCount ∧
    ((Board.resolve_owner_id kv acct).2).openRegions = kv.openRegions := by
  unfold Board.resolve_owner_id
  cases hgetS kv.accountToId acct <;> simp

lemma bucketInsert_keys (acc : List ((Int × Int) × List LocalPx))
    (k : Int × Int) (v : LocalPx) (k2 : Int × Int)
    (h : k2 ∈ (Board.bucketInsert acc k v).map Prod.fst) :
    k2 ∈ acc.map Prod.fst ∨ k2 = k := by
  induction acc with
  | nil => simpa [Board.bucketInsert] using h
  | cons b t ih =>
    by_cases hb : b.1 = k
    · rw [Board.bucketInsert, if_pos hb] at h
      simp only [List.map_cons, List.mem_cons] at h ⊢
      rcases h with h | h
      · exact Or.inl (Or.inl (hb ▸ h))
      · exact Or.inl (Or.inr h)
    · rw [Board.bucketInsert, if_neg hb] at h
      simp only [List.map_cons, List.mem_cons] at h ⊢
      rcases h with h | h
      · exact Or.inl (Or.inl h)
      · rcases ih h with h2 | h2
        · exact Or.inl (Or.inr h2)
        · exact Or.inr h2

lemma bucketPixels_go_keys (pixels : List DrawPixel) :
    ∀ (acc : List ((Int × Int) × List LocalPx)) (k : Int × Int),
      k ∈ (pixels.foldl
        (fun acc p =>
          match p.rgb with
          | none => acc
          | some c =>
            Board.bucketInsert acc (region_coords p.x p.y)
              ⟨(local_coords p.x p.y).1, (local_coords p.x p.y).2, c.1, c.2.1, c.2.2⟩)
        acc).map Prod.fst →
      k ∈ acc.map Prod.fst ∨ ∃ p ∈ pixels, k = region_coords p.x p.y := by
  induction pixels with
  | nil => intro acc k h; exact Or.inl h
  | cons p t ih =>
    intro acc k h
    rw [List.foldl_cons] at h
    cases hrgb : p.rgb with
    | none =>
      rw [hrgb] at h
      rcases ih acc k h with h2 | ⟨p2, hp2, he⟩
      · exact Or.inl h2
      · exact Or.inr ⟨p2, List.mem_cons_of_mem p hp2, he⟩
    | some c =>
      rw [hrgb] at h
      rcases ih _ k h with h2 | ⟨p2, hp2, he⟩
      · rcases bucketInsert_keys _ _ _ _ h2 with h3 | h3
        · exact Or.inl h3
        · exact Or.inr ⟨p, List.mem_cons_self p t, h3⟩
      · exact Or.inr ⟨p2, List.mem_cons_of_mem p hp2, he⟩

lemma bucketPixels_keys (pixels : List DrawPixel) (k : Int × Int)
    (h : k ∈ (Board.bucketPixels pixels).map Prod.fst) :
    ∃ p ∈ pixels, k = region_coords p.x p.y := by
  rcases bucketPixels_go_keys pixels [] k h with h2 | h2
  · simp at h2
  · exact h2

lemma processRegion_fold_closed (ownerId t1 : Nat)
    (buckets : List ((Int × Int) × List LocalPx))
    (a : List AppliedPixel) (o : List (Int × Int)) (kv : KV)
    (h : ∀ bk ∈ buckets, kv.openRegions bk.1 = false) :
    buckets.foldl (Board.processRegion ownerId t1) (a, o, kv) = (a, o, kv) := by
  induction buckets with
  | nil => rfl
  | cons bk t ih =>
    rw [List.foldl_cons]
    have hstep : Board.processRegion ownerId t1 (a, o, kv) bk = (a, o, kv) := by
      unfold Board.processRegion
      simp [h bk (List.mem_cons_self bk t)]
    rw [hstep]
    exact ih fun b hb => h b (List.mem_cons_of_mem bk hb)

/-- C2: a draw event all of whose pixels fall in regions absent from
`open_regions` produces an empty applied list and mutates none of the
region blobs, timestamp z-sets, region metadata, pixel-count hashes, or
the open-region set (only `resolve_owner_id`'s account-registry writes may
occur). -/
theorem C2_gate_closure (kv : KV) (e : DrawEvent)
    (h : ∀ p ∈ e.pixels, kv.openRegions (region_coords p.x p.y) = false) :
    (∀ a o, (Board.apply_event kv e).1 = some (a, o) → a = [] ∧ o = []) ∧
    ((Board.apply_event kv e).2).regions = kv.regions ∧
    ((Board.apply_event kv e).2).pixelTs = kv.pixelTs ∧
    ((Board.apply_event kv e).2).regionMeta = kv.regionMeta ∧
    ((Board.apply_event kv e).2).accountPixelCount = kv.accountPixelCount ∧
    ((Board.apply_event kv e).2).regionPixelCount = kv.regionPixelCount ∧
    ((Board.apply_event kv e).2).openRegions = kv.openRegions := by
  obtain ⟨hre, hts, hmeta, hacc, hrc, hop⟩ :=
    resolve_owner_id_frame kv e.predecessor_id
  by_cases hp : e.pixels.any (fun p => colorPanics p.color)
  · unfold Board.apply_event
    rw [if_pos hp]
    exact ⟨fun a o hao => by simp at hao, hre, hts, hmeta, hacc, hrc, hop⟩
  · have hclosed : ∀ bk ∈ Board.bucketPixels e.pixels,
        ((Board.resolve_owner_id kv e.predecessor_id).2).openRegions bk.1 = false := by
      intro bk hbk
      obtain ⟨p, hpmem, hpeq⟩ := bucketPixels_keys e.pixels bk.1
        (List.mem_map_of_mem Prod.fst hbk)
      rw [hop, hpeq]
      exact h p hpmem
    unfold Board.apply_event
    rw [if_neg hp]
    rw [processRegion_fold_closed _ _ _ _ _ _ hclosed]
    exact ⟨fun a o hao => by
        simp only [Option.some.injEq, Prod.mk.injEq] at hao
        exact ⟨hao.1.symm, hao.2.symm⟩,
      hre, hts, hmeta, hacc, hrc, hop⟩

theorem C2_gate_closure_witness :
    (∀ a o,
      (Board.apply_event
        { regions := fun _ => [], pixelTs := fun _ _ => none
          regionMeta := fun _ => none, accountPixelCount := fun _ => 0
          regionPixelCount := fun _ => 0, openRegions := fun _ => false
          accountToId := [], idToAccount := [] }
        ⟨"alice", 1, 1000, [⟨0, 0, [70, 70, 48, 48, 48, 48]⟩]⟩).1 = some (a, o) →
      a = [] ∧ o = []) ∧
    ((Board.apply_event
        { regions := fun _ => [], pixelTs := fun _ _ => none
          regionMeta := fun _ => none, accountPixelCount := fun _ => 0
          regionPixelCount := fun _ => 0, openRegions := fun _ => false
          accountToId := [], idToAccount := [] }
        ⟨"alice", 1, 1000, [⟨0, 0, [70, 70, 48, 48, 48, 48]⟩]⟩).2).regions =
      (fun _ => []) := by
  have := C2_gate_closure
    { regions := fun _ => [], pixelTs := fun _ _ => none
      regionMeta := fun _ => none, accountPixelCount := fun _ => 0
      regionPixelCount := fun _ => 0, openRegions := fun _ => false
      accountToId := [], idToAccount := [] }
    ⟨"alice", 1, 1000, [⟨0, 0, [70, 70, 48, 48, 48, 48]⟩]⟩
    (by intro p hp; rfl)
  exact ⟨this.1, this.2.1⟩

lemma fupd_apply_eq {α β : Type} [DecidableEq α] (f : α → β) (a : α) (b : β) :
    fupd f a b a = b := by
  simp [fupd]

lemma fupd_apply_ne {α β : Type} [DecidableEq α] (f : α → β) (a x : α) (b : β)
    (h : x ≠ a) : fupd f a b x = f x := by
  simp [fupd, h]

lemma fupd_self {α β : Type} [DecidableEq α] (f : α → β) (a : α) :
    fupd f a (f a) = f := by
  funext x
  unfold fupd
  split_ifs with h
  · rw [h]
  · rfl

lemma resolve_owner_id_found (kv : KV) (acct : String) (w : Nat)
    (h : hgetS kv.accountToId acct = some w) :
    Board.resolve_owner_id kv acct = (w, kv) := by
  unfold Board.resolve_owner_id
  rw [h]

lemma colorPanics_of_ok (c : List Nat) (cr cg cb : Nat)
    (hc : rgbBytes c = RgbResult.ok (cr, cg, cb)) : colorPanics c = false := by
  unfold colorPanics
  rw [hc]
  rfl

lemma bucketPixels_single (x y : Int) (c : List Nat) (cr cg cb : Nat)
    (hc : rgbBytes c = RgbResult.ok (cr, cg, cb)) :
    Board.bucketPixels [⟨x, y, c⟩] =
      [(region_coords x y,
        [⟨(local_coords x y).1, (local_coords x y).2, cr, cg, cb⟩])] := by
  unfold Board.bucketPixels
  simp [DrawPixel.rgb, hc, Board.bucketInsert]

lemma getRegionBlob_of_ne (kv : KV) (rc : Int × Int) (h : kv.regions rc ≠ []) :
    Board.getRegionBlob kv rc = kv.regions rc := by
  unfold Board.getRegionBlob
  simp [h]

lemma sliceAt_writeAt (blob v : List Nat) (off : Nat) (hv : v.length = PIXEL_SIZE)
    (hoff : off ≤ blob.length) :
    sliceAt (writeAt blob off v) off = v := by
  have hpre : (blob.take off).length = off := by
    rw [List.length_take]
    omega
  have key : ∀ pre w suf : List Nat, pre.length = off → w.length = PIXEL_SIZE →
      ((pre ++ w ++ suf).drop off).take PIXEL_SIZE = w := by
    intro pre w suf h1 h2
    rw [List.append_assoc, ← h1, List.drop_left, ← h2, List.take_left]
  exact key _ _ _ hpre hv

/-- `apply_event` on a one-pixel event with a known owner id and a valid
color reduces to processing the single region bucket. -/
lemma apply_event_single_bucket (kv : KV) (acct : String) (w bh t1 : Nat)
    (x y : Int) (c : List Nat) (cr cg cb : Nat)
    (hacct : hgetS kv.accountToId acct = some w)
    (hc : rgbBytes c = RgbResult.ok (cr, cg, cb)) :
    Board.apply_event kv ⟨acct, bh, t1, [⟨x, y, c⟩]⟩ =
      (some ((Board.processRegion w t1 ([], [], kv)
                (region_coords x y,
                 [⟨(local_coords x y).1, (local_coords x y).2, cr, cg, cb⟩])).1,
             (Board.processRegion w t1 ([], [], kv)
                (region_coords x y,
                 [⟨(local_coords x y).1, (local_coords x y).2, cr, cg, cb⟩])).2.1),
       (Board.processRegion w t1 ([], [], kv)
          (region_coords x y,
           [⟨(local_coords x y).1, (local_coords x y).2, cr, cg, cb⟩])).2.2) := by
  have hpanic : colorPanics c = false := colorPanics_of_ok c cr cg cb hc
  simp only [Board.apply_event, resolve_owner_id_found kv acct w hacct]
  simp [hpanic, bucketPixels_single x y c cr cg cb hc]

/-- C8: a within-window overwrite whose existing owner equals the writer's
`owner_id` is applied as a write — the pixel is in the applied list and its
timestamp-index entry is upserted to the event's `block_timestamp_ms` — but
changes neither `account_pixel_count` nor `region_pixel_count` (its
`new_pixel_count` and `stolen_from` contributions are zero). -/
theorem C8_same_owner_refresh (kv : KV) (acct : String) (w bh t1 t0 : Nat)
    (x y : Int) (c : List Nat) (cr cg cb : Nat) (rc : Int × Int) (lx ly : Nat)
    (hrc : rc = region_coords x y) (hlc : (lx, ly) = local_coords x y)
    (hacct : hgetS kv.accountToId acct = some w)
    (hc : rgbBytes c = RgbResult.ok (cr, cg, cb))
    (hopen : kv.openRegions rc = true)
    (hlen : (kv.regions rc).length = REGION_BLOB_SIZE)
    (hts : kv.pixelTs rc (lx, ly) = some t0)
    (hsame : (Pixel.decode (sliceAt (kv.regions rc) (pixel_offset lx ly))).owner_id = w)
    (hw0 : w ≠ 0)
    (hwin : t1 - t0 < OWNERSHIP_DURATION_MS)
    (ht1 : 0 < t1) :
    (Board.apply_event kv ⟨acct, bh, t1, [⟨x, y, c⟩]⟩).1 =
      some ([⟨x, y, cr, cg, cb, w⟩], []) ∧
    ((Board.apply_event kv ⟨acct, bh, t1, [⟨x, y, c⟩]⟩).2).pixelTs rc (lx, ly) =
      some t1 ∧
    ((Board.apply_event kv ⟨acct, bh, t1, [⟨x, y, c⟩]⟩).2).accountPixelCount =
      kv.accountPixelCount ∧
    ((Board.apply_event kv ⟨acct, bh, t1, [⟨x, y, c⟩]⟩).2).regionPixelCount =
      kv.regionPixelCount := by
  have hlx : (local_coords x y).1 = lx := by rw [← hlc]
  have hly : (local_coords x y).2 = ly := by rw [← hlc]
  have hone := apply_event_single_bucket kv acct w bh t1 x y c cr cg cb hacct hc
  rw [← hrc, hlx, hly] at hone
  have hne : kv.regions rc ≠ [] := by
    intro h0
    rw [h0] at hlen
    simp [REGION_BLOB_SIZE, REGION_SIZE, PIXEL_SIZE] at hlen
  have hblob := getRegionBlob_of_ne kv rc hne
  have hx : rc.1 * REGION_SIZE + (lx : Int) = x := by
    have h1 : rc.1 = x / 128 := by rw [hrc]; rfl
    have h2 := congrArg Prod.fst hlc
    simp only [local_coords, REGION_SIZE] at h2 ⊢
    rw [h1]
    omega
  have hy : rc.2 * REGION_SIZE + (ly : Int) = y := by
    have h1 : rc.2 = y / 128 := by rw [hrc]; rfl
    have h2 := congrArg Prod.snd hlc
    simp only [local_coords, REGION_SIZE] at h2 ⊢
    rw [h1]
    omega
  have hst : Board.regionLoop kv rc w t1 [⟨lx, ly, cr, cg, cb⟩] =
      { blob := writeAt (kv.regions rc) (pixel_offset lx ly)
          (Pixel.encode ⟨cr, cg, cb, w⟩)
        appliedTs := [((lx, ly), t1)]
        newPixelCount := 0
        stolenFrom := []
        appliedPx := [{ x := x, y := y, r := cr, g := cg, b := cb, owner_id := w }] } := by
    unfold Board.regionLoop
    rw [List.foldl_cons, List.foldl_nil]
    unfold Board.pixelStep
    simp only [hblob, hsame, hts, hw0, if_false, hwin, decide_True, if_true]
    simp [hx, hy, hw0, hwin]
  have hpipe : Board.pipelineWrites kv rc w t1
      { blob := writeAt (kv.regions rc) (pixel_offset lx ly)
          (Pixel.encode ⟨cr, cg, cb, w⟩)
        appliedTs := [((lx, ly), t1)]
        newPixelCount := 0
        stolenFrom := []
        appliedPx := [{ x := x, y := y, r := cr, g := cg, b := cb, owner_id := w }] } =
      { kv with
        pixelTs := fupd kv.pixelTs rc
          (Board.ztrim (Board.zaddList (kv.pixelTs rc) [((lx, ly), t1)])
            (t1 - OWNERSHIP_DURATION_MS))
        regions := fupd kv.regions rc
          (writeAt (kv.regions rc) (pixel_offset lx ly) (Pixel.encode ⟨cr, cg, cb, w⟩))
        regionMeta := fupd kv.regionMeta rc (some t1) } := by
    unfold Board.pipelineWrites
    simp
  have hproc : Board.processRegion w t1 ([], [], kv) (rc, [⟨lx, ly, cr, cg, cb⟩]) =
      ([{ x := x, y := y, r := cr, g := cg, b := cb, owner_id := w }], [],
        { kv with
          pixelTs := fupd kv.pixelTs rc
            (Board.ztrim (Board.zaddList (kv.pixelTs rc) [((lx, ly), t1)])
              (t1 - OWNERSHIP_DURATION_MS))
          regions := fupd kv.regions rc
            (writeAt (kv.regions rc) (pixel_offset lx ly) (Pixel.encode ⟨cr, cg, cb, w⟩))
          regionMeta := fupd kv.regionMeta rc (some t1) }) := by
    unfold Board.processRegion
    simp only [hopen, hst, hpipe]
    simp
  rw [hone, hproc]
  refine ⟨rfl, ?_, rfl, rfl⟩
  simp only [fupd_apply_eq, Board.ztrim, Board.zaddList, List.foldl_cons, List.foldl_nil,
    fupd_apply_eq]
  have hcut : ¬ (t1 ≤ t1 - OWNERSHIP_DURATION_MS) := by
    simp only [OWNERSHIP_DURATION_MS]
    omega
  simp [hcut]

/-- C1: for a target pixel in an open region with nonzero existing owner
and a present timestamp-index entry of score `t0`, a write at event time
`t1` succeeds — blob bytes updated, pixel in the returned applied list —
iff `t1 - t0` (saturating) is strictly below `OWNERSHIP_MS = 3600000`; on
success with a different owner the pipeline decrements the previous owner's
`account_pixel_count` by 1 and increments the writer's by 1, while
`region_pixel_count` is unchanged. -/
theorem C1_ownership_window (kv : KV) (acct : String) (w bh t1 t0 : Nat)
    (x y : Int) (c : List Nat) (cr cg cb : Nat) (rc : Int × Int) (lx ly eo : Nat)
    (hrc : rc = region_coords x y) (hlc : (lx, ly) = local_coords x y)
    (heo : eo = (Pixel.decode (sliceAt (kv.regions rc) (pixel_offset lx ly))).owner_id)
    (hacct : hgetS kv.accountToId acct = some w)
    (hc : rgbBytes c = RgbResult.ok (cr, cg, cb))
    (hopen : kv.openRegions rc = true)
    (hlen : (kv.regions rc).length = REGION_BLOB_SIZE)
    (hts : kv.pixelTs rc (lx, ly) = some t0)
    (hnz : eo ≠ 0) (hdiff : eo ≠ w) :
    (t1 - t0 < OWNERSHIP_DURATION_MS →
      (Board.apply_event kv ⟨acct, bh, t1, [⟨x, y, c⟩]⟩).1 =
        some ([⟨x, y, cr, cg, cb, w⟩], []) ∧
      sliceAt (((Board.apply_event kv ⟨acct, bh, t1, [⟨x, y, c⟩]⟩).2).regions rc)
          (pixel_offset lx ly) = Pixel.encode ⟨cr, cg, cb, w⟩ ∧
      ((Board.apply_event kv ⟨acct, bh, t1, [⟨x, y, c⟩]⟩).2).accountPixelCount w =
        kv.accountPixelCount w + 1 ∧
      ((Board.apply_event kv ⟨acct, bh, t1, [⟨x, y, c⟩]⟩).2).accountPixelCount eo =
        kv.accountPixelCount eo - 1 ∧
      ((Board.apply_event kv ⟨acct, bh, t1, [⟨x, y, c⟩]⟩).2).regionPixelCount =
        kv.regionPixelCount) ∧
    (¬ t1 - t0 < OWNERSHIP_DURATION_MS →
      (Board.apply_event kv ⟨acct, bh, t1, [⟨x, y, c⟩]⟩).1 = some ([], []) ∧
      ((Board.apply_event kv ⟨acct, bh, t1, [⟨x, y, c⟩]⟩).2).regions = kv.regions ∧
      ((Board.apply_event kv ⟨acct, bh, t1, [⟨x, y, c⟩]⟩).2).accountPixelCount =
        kv.accountPixelCount ∧
      ((Board.apply_event kv ⟨acct, bh, t1, [⟨x, y, c⟩]⟩).2).regionPixelCount =
        kv.regionPixelCount) := by
  have hlx : (local_coords x y).1 = lx := by rw [← hlc]
  have hly : (local_coords x y).2 = ly := by rw [← hlc]
  have hone := apply_event_single_bucket kv acct w bh t1 x y c cr cg cb hacct hc
  rw [← hrc, hlx, hly] at hone
  have hne : kv.regions rc ≠ [] := by
    intro h0
    rw [h0] at hlen
    simp [REGION_BLOB_SIZE, REGION_SIZE, PIXEL_SIZE] at hlen
  have hblob := getRegionBlob_of_ne kv rc hne
  have hx : rc.1 * REGION_SIZE + (lx : Int) = x := by
    have h1 : rc.1 = x / 128 := by rw [hrc]; rfl
    have h2 := congrArg Prod.fst hlc
    simp only [local_coords, REGION_SIZE] at h2 ⊢
    rw [h1]
    omega
  have hy : rc.2 * REGION_SIZE + (ly : Int) = y := by
    have h1 : rc.2 = y / 128 := by rw [hrc]; rfl
    have h2 := congrArg Prod.snd hlc
    simp only [local_coords, REGION_SIZE] at h2 ⊢
    rw [h1]
    omega
  have hlxb : lx < 128 := by
    have h2 := congrArg Prod.fst hlc
    simp only [local_coords, REGION_SIZE] at h2
    omega
  have hlyb : ly < 128 := by
    have h2 := congrArg Prod.snd hlc
    simp only [local_coords, REGION_SIZE] at h2
    omega
  have hoffb : pixel_offset lx ly + PIXEL_SIZE ≤ (kv.regions rc).length := by
    rw [hlen]
    simp only [pixel_offset, PIXEL_SIZE, REGION_BLOB_SIZE, REGION_SIZE,
      show Int.toNat 128 = 128 from rfl]
    omega
  constructor
  · intro hwin
    have hst : Board.regionLoop kv rc w t1 [⟨lx, ly, cr, cg, cb⟩] =
        { blob := writeAt (kv.regions rc) (pixel_offset lx ly)
            (Pixel.encode ⟨cr, cg, cb, w⟩)
          appliedTs := [((lx, ly), t1)]
          newPixelCount := 0
          stolenFrom := [(eo, 1)]
          appliedPx := [{ x := x, y := y, r := cr, g := cg, b := cb, owner_id := w }] } := by
      unfold Board.regionLoop
      rw [List.foldl_cons, List.foldl_nil]
      unfold Board.pixelStep
      simp only [hblob, ← heo, hts]
      simp [hnz, hdiff, hwin, hx, hy, Board.incStolen]
    have hpipe : Board.pipelineWrites kv rc w t1
        { blob := writeAt (kv.regions rc) (pixel_offset lx ly)
            (Pixel.encode ⟨cr, cg, cb, w⟩)
          appliedTs := [((lx, ly), t1)]
          newPixelCount := 0
          stolenFrom := [(eo, 1)]
          appliedPx := [{ x := x, y := y, r := cr, g := cg, b := cb, owner_id := w }] } =
        { kv with
          pixelTs := fupd kv.pixelTs rc
            (Board.ztrim (Board.zaddList (kv.pixelTs rc) [((lx, ly), t1)])
              (t1 - OWNERSHIP_DURATION_MS))
          regions := fupd kv.regions rc
            (writeAt (kv.regions rc) (pixel_offset lx ly) (Pixel.encode ⟨cr, cg, cb, w⟩))
          regionMeta := fupd kv.regionMeta rc (some t1)
          accountPixelCount :=
            fupd (fupd kv.accountPixelCount w (kv.accountPixelCount w + 1)) eo
              (fupd kv.accountPixelCount w (kv.accountPixelCount w + 1) eo - 1) } := by
      unfold Board.pipelineWrites
      simp
    have hproc : Board.processRegion w t1 ([], [], kv) (rc, [⟨lx, ly, cr, cg, cb⟩]) =
        ([{ x := x, y := y, r := cr, g := cg, b := cb, owner_id := w }], [],
          { kv with
            pixelTs := fupd kv.pixelTs rc
              (Board.ztrim (Board.zaddList (kv.pixelTs rc) [((lx, ly), t1)])
                (t1 - OWNERSHIP_DURATION_MS))
            regions := fupd kv.regions rc
              (writeAt (kv.regions rc) (pixel_offset lx ly) (Pixel.encode ⟨cr, cg, cb, w⟩))
            regionMeta := fupd kv.regionMeta rc (some t1)
            accountPixelCount :=
              fupd (fupd kv.accountPixelCount w (kv.accountPixelCount w + 1)) eo
                (fupd kv.accountPixelCount w (kv.accountPixelCount w + 1) eo - 1) }) := by
      unfold Board.processRegion
      simp only [hopen, hst, hpipe]
      simp
    rw [hone, hproc]
    refine ⟨rfl, ?_, ?_, ?_, rfl⟩
    · simp only [fupd_apply_eq]
      exact sliceAt_writeAt (kv.regions rc) (Pixel.encode ⟨cr, cg, cb, w⟩)
        (pixel_offset lx ly) rfl (by omega)
    · show fupd (fupd kv.accountPixelCount w (kv.accountPixelCount w + 1)) eo
          (fupd kv.accountPixelCount w (kv.accountPixelCount w + 1) eo - 1) w =
        kv.accountPixelCount w + 1
      rw [fupd_apply_ne _ _ _ _ (Ne.symm hdiff), fupd_apply_eq]
    · show fupd (fupd kv.accountPixelCount w (kv.accountPixelCount w + 1)) eo
          (fupd kv.accountPixelCount w (kv.accountPixelCount w + 1) eo - 1) eo =
        kv.accountPixelCount eo - 1
      rw [fupd_apply_eq, fupd_apply_ne _ _ _ _ hdiff]
  · intro hwin
    have hst : Board.regionLoop kv rc w t1 [⟨lx, ly, cr, cg, cb⟩] =
        { blob := kv.regions rc
          appliedTs := []
          newPixelCount := 0
          stolenFrom := []
          appliedPx := [] } := by
      unfold Board.regionLoop
      rw [List.foldl_cons, List.foldl_nil]
      unfold Board.pixelStep
      simp only [hblob, ← heo, hts]
      simp [hnz, hwin]
    have hpipe : Board.pipelineWrites kv rc w t1
        { blob := kv.regions rc
          appliedTs := []
          newPixelCount := 0
          stolenFrom := []
          appliedPx := [] } =
        { kv with regionMeta := fupd kv.regionMeta rc (some t1) } := by
      unfold Board.pipelineWrites
      simp [fupd_self]
    have hproc : Board.processRegion w t1 ([], [], kv) (rc, [⟨lx, ly, cr, cg, cb⟩]) =
        ([], [], { kv with regionMeta := fupd kv.regionMeta rc (some t1) }) := by
      unfold Board.processRegion
      simp only [hopen, hst, hpipe]
      simp
    rw [hone, hproc]
    exact ⟨rfl, rfl, rfl, rfl⟩

/-- A concrete store used to witness the apply-event theorems: region
`(0, 0)` is open, its blob holds one drawn pixel `(9, 9, 9)` owned by id 5
at local `(0, 0)` with timestamp 1000, and two accounts are registered. -/
def wBlob : List Nat :=
  Pixel.encode ⟨9, 9, 9, 5⟩ ++ List.replicate (REGION_BLOB_SIZE - 6) 0

def wKV : KV :=
  { regions := fun rc => if rc = (0, 0) then wBlob else []
    pixelTs := fun rc m => if rc = (0, 0) ∧ m = (0, 0) then some 1000 else none
    regionMeta := fun _ => none
    accountPixelCount := fun _ => 0
    regionPixelCount := fun _ => 0
    openRegions := fun rc => decide (rc = (0, 0))
    accountToId := [("alice", 7), ("bob", 5)]
    idToAccount := [(7, "alice"), (5, "bob")] }

lemma wBlob_length : wBlob.length = REGION_BLOB_SIZE := by
  rw [wBlob, List.length_append, List.length_replicate]
  norm_num [Pixel.encode, REGION_BLOB_SIZE, REGION_SIZE, PIXEL_SIZE]

theorem C1_ownership_window_witness :
    (2000 - 1000 < OWNERSHIP_DURATION_MS →
      (Board.apply_event wKV ⟨"alice", 1, 2000, [⟨0, 0, [70, 70, 48, 48, 48, 48]⟩]⟩).1 =
        some ([⟨0, 0, 255, 0, 0, 7⟩], []) ∧
      sliceAt (((Board.apply_event wKV
            ⟨"alice", 1, 2000, [⟨0, 0, [70, 70, 48, 48, 48, 48]⟩]⟩).2).regions (0, 0))
          (pixel_offset 0 0) = Pixel.encode ⟨255, 0, 0, 7⟩ ∧
      ((Board.apply_event wKV
          ⟨"alice", 1, 2000, [⟨0, 0, [70, 70, 48, 48, 48, 48]⟩]⟩).2).accountPixelCount 7 =
        wKV.accountPixelCount 7 + 1 ∧
      ((Board.apply_event wKV
          ⟨"alice", 1, 2000, [⟨0, 0, [70, 70, 48, 48, 48, 48]⟩]⟩).2).accountPixelCount 5 =
        wKV.accountPixelCount 5 - 1 ∧
      ((Board.apply_event wKV
          ⟨"alice", 1, 2000, [⟨0, 0, [70, 70, 48, 48, 48, 48]⟩]⟩).2).regionPixelCount =
        wKV.regionPixelCount) ∧
    (¬ 2000 - 1000 < OWNERSHIP_DURATION_MS →
      (Board.apply_event wKV ⟨"alice", 1, 2000, [⟨0, 0, [70, 70, 48, 48, 48, 48]⟩]⟩).1 =
        some ([], []) ∧
      ((Board.apply_event wKV
          ⟨"alice", 1, 2000, [⟨0, 0, [70, 70, 48, 48, 48, 48]⟩]⟩).2).regions =
        wKV.regions ∧
      ((Board.apply_event wKV
          ⟨"alice", 1, 2000, [⟨0, 0, [70, 70, 48, 48, 48, 48]⟩]⟩).2).accountPixelCount =
        wKV.accountPixelCount ∧
      ((Board.apply_event wKV
          ⟨"alice", 1, 2000, [⟨0, 0, [70, 70, 48, 48, 48, 48]⟩]⟩).2).regionPixelCount =
        wKV.regionPixelCount) :=
  C1_ownership_window wKV "alice" 7 1 2000 1000 0 0 [70, 70, 48, 48, 48, 48]
    255 0 0 (0, 0) 0 0 5 rfl rfl (by decide) (by decide) (by decide) (by decide)
    wBlob_length (by decide) (by decide) (by decide)

theorem C8_same_owner_refresh_witness :
    (Board.apply_event wKV ⟨"bob", 1, 2000, [⟨0, 0, [70, 70, 48, 48, 48, 48]⟩]⟩).1 =
      some ([⟨0, 0, 255, 0, 0, 5⟩], []) ∧
    ((Board.apply_event wKV
        ⟨"bob", 1, 2000, [⟨0, 0, [70, 70, 48, 48, 48, 48]⟩]⟩).2).pixelTs (0, 0) (0, 0) =
      some 2000 ∧
    ((Board.apply_event wKV
        ⟨"bob", 1, 2000, [⟨0, 0, [70, 70, 48, 48, 48, 48]⟩]⟩).2).accountPixelCount =
      wKV.accountPixelCount ∧
    ((Board.apply_event wKV
        ⟨"bob", 1, 2000, [⟨0, 0, [70, 70, 48, 48, 48, 48]⟩]⟩).2).regionPixelCount =
      wKV.regionPixelCount :=
  C8_same_owner_refresh wKV "bob" 5 1 2000 1000 0 0 [70, 70, 48, 48, 48, 48]
    255 0 0 (0, 0) 0 0 rfl rfl (by decide) (by decide) (by decide) wBlob_length
    (by decide) (by decide) (by decide) (by decide) (by decide)

lemma saddNeighbors_cons (kv : KV) (opened : List (Int × Int))
    (n0 : Int × Int) (t : List (Int × Int)) :
    Board.saddNeighbors kv opened (n0 :: t) =
      if kv.openRegions n0 then Board.saddNeighbors kv opened t
      else
        Board.saddNeighbors { kv with openRegions := fupd kv.openRegions n0 true }
          (opened ++ [n0]) t := by
  unfold Board.saddNeighbors
  rw [List.foldl_cons]
  by_cases h : kv.openRegions n0 <;> simp [h]

lemma saddNeighbors_opened (ns : List (Int × Int)) :
    ∀ (kv : KV) (opened : List (Int × Int)), ns.Nodup →
      (Board.saddNeighbors kv opened ns).2 =
        opened ++ ns.filter (fun n => !kv.openRegions n) := by
  induction ns with
  | nil => intro kv opened _; simp [Board.saddNeighbors]
  | cons n0 t ih =>
    intro kv opened hnd
    rw [saddNeighbors_cons]
    rcases List.nodup_cons.mp hnd with ⟨hn0, hndt⟩
    by_cases h : kv.openRegions n0
    · rw [if_pos h, ih kv opened hndt]
      simp [List.filter_cons, h]
    · rw [if_neg h, ih _ _ hndt]
      have hcong : t.filter
          (fun n => !({ kv with openRegions := fupd kv.openRegions n0 true }).openRegions n) =
          t.filter (fun n => !kv.openRegions n) := by
        apply List.filter_congr
        intro z hz
        have hzne : z ≠ n0 := fun he => hn0 (he ▸ hz)
        simp [fupd_apply_ne _ _ _ _ hzne]
      rw [hcong]
      simp [List.filter_cons, h]

lemma saddNeighbors_open_mono (ns : List (Int × Int)) :
    ∀ (kv : KV) (opened : List (Int × Int)) (n : Int × Int),
      kv.openRegions n = true →
      (Board.saddNeighbors kv opened ns).1.openRegions n = true := by
  induction ns with
  | nil => intro kv opened n h; exact h
  | cons n0 t ih =>
    intro kv opened n h
    rw [saddNeighbors_cons]
    by_cases h0 : kv.openRegions n0
    · rw [if_pos h0]; exact ih kv opened n h
    · rw [if_neg h0]
      refine ih _ _ n ?_
      by_cases hne : n = n0
      · simp [fupd, hne]
      · simpa [fupd, hne] using h

lemma saddNeighbors_open_mem (ns : List (Int × Int)) :
    ∀ (kv : KV) (opened : List (Int × Int)) (n : Int × Int), n ∈ ns →
      (Board.saddNeighbors kv opened ns).1.openRegions n = true := by
  induction ns with
  | nil => intro kv opened n h; simp at h
  | cons n0 t ih =>
    intro kv opened n hn
    rw [saddNeighbors_cons]
    by_cases h0 : kv.openRegions n0
    · rw [if_pos h0]
      rcases List.mem_cons.mp hn with he | ht
      · exact saddNeighbors_open_mono t kv opened n (he ▸ h0)
      · exact ih kv opened n ht
    · rw [if_neg h0]
      rcases List.mem_cons.mp hn with he | ht
      · refine saddNeighbors_open_mono t _ _ n ?_
        simp [fupd, he]
      · exact ih _ _ n ht

lemma saddNeighbors_frame (ns : List (Int × Int)) :
    ∀ (kv : KV) (opened : List (Int × Int)),
      (Board.saddNeighbors kv opened ns).1.regions = kv.regions ∧
      (Board.saddNeighbors kv opened ns).1.pixelTs = kv.pixelTs ∧
      (Board.saddNeighbors kv opened ns).1.regionMeta = kv.regionMeta ∧
      (Board.saddNeighbors kv opened ns).1.accountPixelCount = kv.accountPixelCount ∧
      (Board.saddNeighbors kv opened ns).1.regionPixelCount = kv.regionPixelCount := by
  induction ns with
  | nil => intro kv opened; exact ⟨rfl, rfl, rfl, rfl, rfl⟩
  | cons n0 t ih =>
    intro kv opened
    rw [saddNeighbors_cons]
    by_cases h : kv.openRegions n0
    · rw [if_pos h]; exact ih kv opened
    · rw [if_neg h]; exact ih _ _

lemma pipelineWrites_openRegions (kv : KV) (rc : Int × Int) (w t1 : Nat)
    (st : Board.LoopSt) :
    (Board.pipelineWrites kv rc w t1 st).openRegions = kv.openRegions := by
  unfold Board.pipelineWrites
  dsimp only
  split_ifs <;> rfl

lemma cardinalNeighbors_nodup (rc : Int × Int) :
    (Board.cardinalNeighbors rc).Nodup := by
  simp [Board.cardinalNeighbors, Prod.ext_iff]
  omega

/-- C4: when `apply_event` applies at least one newly claimed pixel in an
open region `(rx, ry)` and afterwards `region_pixel_count` of that region
is at least `REGION_OPEN_THRESHOLD = 3276`, then all four cardinal
neighbors are members of `open_regions` after the call, and the returned
`newly_opened` list holds exactly the neighbors whose `SADD` newly inserted
the member (those not already open). -/
theorem C4_expansion_trigger (kv kv1 : KV) (w : Nat) (e : DrawEvent)
    (rx ry : Int) (ps : List LocalPx)
    (hres : Board.resolve_owner_id kv e.predecessor_id = (w, kv1))
    (hb : Board.bucketPixels e.pixels = [((rx, ry), ps)])
    (hnp : e.pixels.any (fun p => colorPanics p.color) = false)
    (hopen : kv.openRegions (rx, ry) = true)
    (hnew : 0 < (Board.regionLoop kv1 (rx, ry) w e.block_timestamp_ms ps).newPixelCount)
    (hcount : REGION_OPEN_THRESHOLD ≤
      ((Board.apply_event kv e).2).regionPixelCount (rx, ry)) :
    (∀ n ∈ Board.cardinalNeighbors (rx, ry),
      ((Board.apply_event kv e).2).openRegions n = true) ∧
    ((Board.apply_event kv e).1).map (fun pr => pr.2) =
      some ((Board.cardinalNeighbors (rx, ry)).filter (fun n => !kv.openRegions n)) := by
  have hfr := resolve_owner_id_frame kv e.predecessor_id
  rw [hres] at hfr
  have hop1 : kv1.openRegions = kv.openRegions := hfr.2.2.2.2.2
  have hgate : ¬ kv1.openRegions (rx, ry) = false := by
    rw [hop1, hopen]
    simp
  have happ : Board.apply_event kv e =
      (some ((Board.processRegion w e.block_timestamp_ms ([], [], kv1)
            ((rx, ry), ps)).1,
          (Board.processRegion w e.block_timestamp_ms ([], [], kv1)
            ((rx, ry), ps)).2.1),
       (Board.processRegion w e.block_timestamp_ms ([], [], kv1)
          ((rx, ry), ps)).2.2) := by
    simp only [Board.apply_event, hres, hnp, Bool.false_eq_true, if_false, hb,
      List.foldl_cons, List.foldl_nil]
  have hth : REGION_OPEN_THRESHOLD ≤
      (Board.pipelineWrites kv1 (rx, ry) w e.block_timestamp_ms
        (Board.regionLoop kv1 (rx, ry) w e.block_timestamp_ms ps)).regionPixelCount
        (rx, ry) := by
    by_contra hth
    have hproc2 : Board.processRegion w e.block_timestamp_ms ([], [], kv1)
        ((rx, ry), ps) =
        ((Board.regionLoop kv1 (rx, ry) w e.block_timestamp_ms ps).appliedPx, [],
         Board.pipelineWrites kv1 (rx, ry) w e.block_timestamp_ms
           (Board.regionLoop kv1 (rx, ry) w e.block_timestamp_ms ps)) := by
      unfold Board.processRegion
      dsimp only
      rw [if_neg hgate, if_neg (fun hand => hth hand.2)]
      simp
    rw [happ] at hcount
    dsimp only at hcount
    rw [hproc2] at hcount
    exact hth hcount
  have hproc : Board.processRegion w e.block_timestamp_ms ([], [], kv1)
      ((rx, ry), ps) =
      ((Board.regionLoop kv1 (rx, ry) w e.block_timestamp_ms ps).appliedPx,
       (Board.saddNeighbors
          (Board.pipelineWrites kv1 (rx, ry) w e.block_timestamp_ms
            (Board.regionLoop kv1 (rx, ry) w e.block_timestamp_ms ps)) []
          (Board.cardinalNeighbors (rx, ry))).2,
       (Board.saddNeighbors
          (Board.pipelineWrites kv1 (rx, ry) w e.block_timestamp_ms
            (Board.regionLoop kv1 (rx, ry) w e.block_timestamp_ms ps)) []
          (Board.cardinalNeighbors (rx, ry))).1) := by
    unfold Board.processRegion
    dsimp only
    rw [if_neg hgate, if_pos ⟨hnew, hth⟩]
    simp
  have hopkvp : (Board.pipelineWrites kv1 (rx, ry) w e.block_timestamp_ms
      (Board.regionLoop kv1 (rx, ry) w e.block_timestamp_ms ps)).openRegions =
      kv.openRegions := by
    rw [pipelineWrites_openRegions]
    exact hop1
  constructor
  · intro n hn
    rw [happ]
    dsimp only
    rw [hproc]
    exact saddNeighbors_open_mem _ _ _ n hn
  · rw [happ]
    dsimp only
    rw [hproc]
    dsimp only [Option.map_some]
    rw [saddNeighbors_opened _ _ _ (cardinalNeighbors_nodup (rx, ry)), hopkvp]
    simp

/-- A concrete store one pixel short of the expansion threshold in region
`(0, 0)`, which is the only open region. -/
def kvC4 : KV :=
  { regions := fun _ => []
    pixelTs := fun _ _ => none
    regionMeta := fun _ => none
    accountPixelCount := fun _ => 0
    regionPixelCount := fun rc => if rc = (0, 0) then 3275 else 0
    openRegions := fun rc => decide (rc = (0, 0))
    accountToId := [("alice", 1)]
    idToAccount := [(1, "alice")] }

theorem C4_expansion_trigger_witness :
    (∀ n ∈ Board.cardinalNeighbors (0, 0),
      ((Board.apply_event kvC4
        ⟨"alice", 1, 1000, [⟨0, 0, [70, 70, 48, 48, 48, 48]⟩]⟩).2).openRegions n = true) ∧
    ((Board.apply_event kvC4
        ⟨"alice", 1, 1000, [⟨0, 0, [70, 70, 48, 48, 48, 48]⟩]⟩).1).map (fun pr => pr.2) =
      some ((Board.cardinalNeighbors (0, 0)).filter (fun n => !kvC4.openRegions n)) :=
  C4_expansion_trigger kvC4 kvC4 1 ⟨"alice", 1, 1000, [⟨0, 0, [70, 70, 48, 48, 48, 48]⟩]⟩
    0 0 [⟨0, 0, 255, 0, 0⟩] rfl rfl rfl rfl (by decide) (by decide)

end BigDrawingBerry
